import Mathlib

/-!
Verification of the LRU data cache and integration plugin of `plugins/id31.py`.

The development shallowly embeds the Python source:

* `DataCache` (a "Borg" dict subclass with an `ordered` recency list, a
  backing `dict` and a `max_size`) becomes a Lean structure over an
  association list; each Python method becomes a pure state-passing
  function translated line by line from the source.
* Python exceptions (`ValueError` from `list.index`, `KeyError` from
  `dict.pop` / the explicit `raise KeyError`, `AttributeError` from calling
  a method on `None`) become an error type threaded through `Except`.
* Object identity (`stored is ai`, deep copies) is modelled by giving every
  Python object a numeric identity: values are `Nat` object ids and
  `__deepcopy__` is an arbitrary function producing the copy's id.
* External capabilities (`os.path.exists`) are parameters; the `os.path`
  string helpers used to build output paths are modelled directly.
-/

namespace ID31

/-- Python exception kinds that the modelled code can raise. -/
inductive CacheError where
  | valueError
  | keyError
  | attributeError
deriving DecidableEq, Repr

deriving instance DecidableEq for Except

/-! ### Association-list model of the Python `dict` field -/

/-- Lookup in the backing dict (`self.dict[key]`), `none` when absent. -/
def dictGet? {V : Type} : List (String × V) → String → Option V
  | [], _ => none
  | (k, v) :: rest, key => if k = key then some v else dictGet? rest key

/-- Assignment `self.dict[key] = value`: overwrite in place when the key is
present, append a fresh binding otherwise (CPython dict semantics). -/
def dictSet {V : Type} : List (String × V) → String → V → List (String × V)
  | [], key, value => [(key, value)]
  | (k, v) :: rest, key, value =>
      if k = key then (key, value) :: rest else (k, v) :: dictSet rest key value

/-- Removal `self.dict.pop(key)` (the state part; the returned value is read
with `dictGet?`). Removes the first binding of `key`. -/
def dictPop {V : Type} : List (String × V) → String → List (String × V)
  | [], _ => []
  | (k, v) :: rest, key => if k = key then rest else (k, v) :: dictPop rest key

/-- The key set of the backing dict. -/
def dictKeys {V : Type} (d : List (String × V)) : List String :=
  d.map Prod.fst

/-- `self.ordered.pop(self.ordered.index(key))`: remove the first occurrence
of `key` from the recency list. -/
def listRemove : List String → String → List String
  | [], _ => []
  | x :: rest, key => if x = key then rest else x :: listRemove rest key

/-! ### The `DataCache` state -/

/-- The shared ("Borg") state of `DataCache`: the recency list
`self.ordered`, the backing mapping `self.dict` and the bound
`self.max_size`.  The semaphore `self._sem` carries no data and is modelled
by the atomicity granularity of the operations below. -/
structure DataCache (V : Type) where
  ordered : List String
  dict : List (String × V)
  max_size : Nat
deriving DecidableEq, Repr

/-- Default of the `max_size` parameter of `DataCache.__init__`. -/
def defaultMaxSize : Nat := 10

/-- `DataCache.__init__(max_size)`: a Borg constructor.  `shared` is the
class-level `__shared_state` (`none` before the first construction).  The
first construction seeds the shared state; every later construction returns
the existing shared state untouched, ignoring its `max_size` argument. -/
def DataCache.init {V : Type} (shared : Option (DataCache V)) (max_size : Nat) :
    DataCache V :=
  match shared with
  | some s => s
  | none => { ordered := [], dict := [], max_size := max_size }

/-- The recency list after the removal step of `__setitem__`
(`if key in self.ordered: self.ordered.pop(self.ordered.index(key))`). -/
def setitemPre {V : Type} (c : DataCache V) (key : String) : List String :=
  if key ∈ c.ordered then listRemove c.ordered key else c.ordered

/-- `DataCache.__setitem__(key, value)` (source lines 89-103):
store in `dict`, drop `key` from `ordered` if present, evict the head of
`ordered` from both structures when `len(self.ordered) > self.max_size`
holds at that point (before the append!), then append `key`.
`headD ""`/`tail` model `self.ordered.pop(0)`; the branch is only taken on a
nonempty list, so the `""` default is never used. -/
def DataCache.setitem {V : Type} (c : DataCache V) (key : String) (value : V) :
    DataCache V :=
  if (setitemPre c key).length > c.max_size then
    { ordered := (setitemPre c key).tail ++ [key],
      dict := dictPop (dictSet c.dict key value) ((setitemPre c key).headD ""),
      max_size := c.max_size }
  else
    { ordered := setitemPre c key ++ [key],
      dict := dictSet c.dict key value,
      max_size := c.max_size }

/-- `DataCache.__getitem__(key)` (source lines 105-114):
`self.ordered.index(key)` raises `ValueError` on an absent key; otherwise
`key` is moved to the tail of `ordered` and `self.dict[key]` is returned
(`KeyError` if the mapping were out of sync). -/
def DataCache.getitem {V : Type} (c : DataCache V) (key : String) :
    DataCache V × Except CacheError V :=
  if key ∈ c.ordered then
    match dictGet? c.dict key with
    | some v =>
        ({ c with ordered := listRemove c.ordered key ++ [key] }, Except.ok v)
    | none =>
        ({ c with ordered := listRemove c.ordered key ++ [key] },
          Except.error CacheError.keyError)
  else (c, Except.error CacheError.valueError)

/-- `DataCache.__contains__(key)`: `key in self.dict`. -/
def DataCache.contains {V : Type} (c : DataCache V) (key : String) : Bool :=
  decide (key ∈ dictKeys c.dict)

/-- `DataCache.__len__()`: `len(self.ordered)`. -/
def DataCache.len {V : Type} (c : DataCache V) : Nat :=
  c.ordered.length

/-- `DataCache.get(key, default=None)` (source lines 129-137), the
lookup-or-insert operation: if `key in self.ordered`, delegate to
`__getitem__`; else if `default is not None`, store it via `__setitem__` and
return it; else fall through returning Python `None` (here `none`). -/
def DataCache.get {V : Type} (c : DataCache V) (key : String)
    (default : Option V) : DataCache V × Except CacheError (Option V) :=
  if key ∈ c.ordered then
    match c.getitem key with
    | (c1, Except.ok v) => (c1, Except.ok (some v))
    | (c1, Except.error e) => (c1, Except.error e)
  else
    match default with
    | some d => (c.setitem key d, Except.ok (some d))
    | none => (c, Except.ok none)

/-- `DataCache.keys()`: a copy (`self.ordered[:]`) of the recency list. -/
def DataCache.keys {V : Type} (c : DataCache V) : List String :=
  c.ordered

/-- `DataCache.pop(key)` (source lines 146-158): `KeyError` when `key` is
not in `ordered`; otherwise remove it from `ordered`, then pop it from
`dict` and return the removed value (`KeyError` there only if the mapping
were out of sync, with `ordered` already mutated). -/
def DataCache.pop {V : Type} (c : DataCache V) (key : String) :
    DataCache V × Except CacheError V :=
  if key ∈ c.ordered then
    match dictGet? c.dict key with
    | some v =>
        ({ c with ordered := listRemove c.ordered key, dict := dictPop c.dict key },
          Except.ok v)
    | none =>
        ({ c with ordered := listRemove c.ordered key },
          Except.error CacheError.keyError)
  else (c, Except.error CacheError.keyError)

/-! ### Lemmas about the dict model -/

theorem dictGet?_dictSet_self {V : Type} (d : List (String × V)) (key : String)
    (value : V) : dictGet? (dictSet d key value) key = some value := by
  induction d with
  | nil => simp [dictSet, dictGet?]
  | cons p rest ih =>
      by_cases h : p.1 = key
      · simp [dictSet, dictGet?, h]
      · simp [dictSet, dictGet?, h, ih]

theorem dictGet?_dictSet_ne {V : Type} (d : List (String × V)) {k key : String}
    (value : V) (h : k ≠ key) :
    dictGet? (dictSet d key value) k = dictGet? d k := by
  induction d with
  | nil => simp [dictSet, dictGet?, Ne.symm h]
  | cons p rest ih =>
      by_cases hp : p.1 = key
      · simp [dictSet, dictGet?, hp, h, Ne.symm h]
      · simp [dictSet, dictGet?, hp, ih]

theorem mem_dictKeys_dictSet {V : Type} (d : List (String × V)) (k key : String)
    (value : V) :
    k ∈ dictKeys (dictSet d key value) ↔ k = key ∨ k ∈ dictKeys d := by
  induction d with
  | nil => simp [dictSet, dictKeys]
  | cons p rest ih =>
      by_cases hp : p.1 = key
      · subst hp
        simp [dictSet, dictKeys]
      · simp only [dictSet, if_neg hp, dictKeys, List.map_cons, List.mem_cons] at *
        tauto

theorem nodup_dictKeys_dictSet {V : Type} (d : List (String × V)) (key : String)
    (value : V) (h : (dictKeys d).Nodup) :
    (dictKeys (dictSet d key value)).Nodup := by
  induction d with
  | nil => simp [dictSet, dictKeys]
  | cons p rest ih =>
      simp only [dictKeys, List.map_cons, List.nodup_cons] at h
      by_cases hp : p.1 = key
      · subst hp
        simpa [dictSet, dictKeys, List.nodup_cons] using h
      · simp only [dictSet, if_neg hp, dictKeys, List.map_cons, List.nodup_cons]
        refine ⟨fun hm => ?_, ih h.2⟩
        rcases (mem_dictKeys_dictSet rest p.1 key value).1 hm with h1 | h1
        · exact hp h1
        · exact h.1 h1

theorem length_dictSet_mem {V : Type} (d : List (String × V)) {key : String}
    (value : V) (h : key ∈ dictKeys d) :
    (dictSet d key value).length = d.length := by
  induction d with
  | nil => simp [dictKeys] at h
  | cons p rest ih =>
      by_cases hp : p.1 = key
      · simp [dictSet, hp]
      · simp only [dictKeys, List.map_cons, List.mem_cons] at h
        rcases h with h | h
        · exact absurd h.symm hp
        · simp [dictSet, hp, ih h]

theorem length_dictSet_not_mem {V : Type} (d : List (String × V)) {key : String}
    (value : V) (h : key ∉ dictKeys d) :
    (dictSet d key value).length = d.length + 1 := by
  induction d with
  | nil => simp [dictSet]
  | cons p rest ih =>
      simp only [dictKeys, List.map_cons, List.mem_cons] at h
      push_neg at h
      have hp : p.1 ≠ key := fun hh => h.1 hh.symm
      simp [dictSet, hp, ih h.2]

theorem dictKeys_dictPop_sublist {V : Type} (d : List (String × V))
    (key : String) : (dictKeys (dictPop d key)).Sublist (dictKeys d) := by
  induction d with
  | nil => simp [dictPop]
  | cons p rest ih =>
      by_cases hp : p.1 = key
      · simp only [dictPop, if_pos hp, dictKeys, List.map_cons]
        exact (List.sublist_cons_self _ _)
      · simp only [dictPop, if_neg hp, dictKeys, List.map_cons]
        exact ih.cons₂ p.1

theorem nodup_dictKeys_dictPop {V : Type} (d : List (String × V)) (key : String)
    (h : (dictKeys d).Nodup) : (dictKeys (dictPop d key)).Nodup :=
  (dictKeys_dictPop_sublist d key).nodup h

theorem mem_dictKeys_dictPop_of_ne {V : Type} (d : List (String × V))
    {k key : String} (h : k ≠ key) :
    k ∈ dictKeys (dictPop d key) ↔ k ∈ dictKeys d := by
  induction d with
  | nil => simp [dictPop]
  | cons p rest ih =>
      by_cases hp : p.1 = key
      · subst hp
        simp only [dictPop, if_pos rfl, dictKeys, List.map_cons, List.mem_cons]
        exact ⟨fun hm => Or.inr hm, fun hm => hm.resolve_left h⟩
      · simp only [dictPop, if_neg hp, dictKeys, List.map_cons, List.mem_cons]
        rw [show dictKeys (dictPop rest key) = (dictPop rest key).map Prod.fst from rfl] at ih
        simp only [dictKeys] at ih
        tauto

theorem not_mem_dictKeys_dictPop {V : Type} (d : List (String × V))
    (key : String) (h : (dictKeys d).Nodup) :
    key ∉ dictKeys (dictPop d key) := by
  induction d with
  | nil => simp [dictPop, dictKeys]
  | cons p rest ih =>
      simp only [dictKeys, List.map_cons, List.nodup_cons] at h
      by_cases hp : p.1 = key
      · subst hp
        simpa [dictPop, dictKeys] using h.1
      · simp only [dictPop, if_neg hp, dictKeys, List.map_cons, List.mem_cons]
        push_neg
        exact ⟨fun hh => hp hh.symm, ih h.2⟩

theorem length_dictPop_mem {V : Type} (d : List (String × V)) {key : String}
    (h : key ∈ dictKeys d) : (dictPop d key).length + 1 = d.length := by
  induction d with
  | nil => simp [dictKeys] at h
  | cons p rest ih =>
      by_cases hp : p.1 = key
      · simp [dictPop, hp]
      · simp only [dictKeys, List.map_cons, List.mem_cons] at h
        rcases h with h | h
        · exact absurd h.symm hp
        · simp [dictPop, hp, ih h]

theorem dictGet?_dictPop_ne {V : Type} (d : List (String × V)) {k key : String}
    (h : k ≠ key) : dictGet? (dictPop d key) k = dictGet? d k := by
  induction d with
  | nil => simp [dictPop]
  | cons p rest ih =>
      by_cases hp : p.1 = key
      · subst hp
        simp [dictPop, dictGet?, Ne.symm h]
      · simp only [dictPop, if_neg hp, dictGet?]
        by_cases hk : p.1 = k
        · simp [hk]
        · simp [hk, ih]

theorem dictGet?_eq_some_of_mem {V : Type} (d : List (String × V)) {key : String}
    (h : key ∈ dictKeys d) : ∃ v, dictGet? d key = some v := by
  induction d with
  | nil => simp [dictKeys] at h
  | cons p rest ih =>
      by_cases hp : p.1 = key
      · exact ⟨p.2, by simp [dictGet?, hp]⟩
      · simp only [dictKeys, List.map_cons, List.mem_cons] at h
        rcases h with h | h
        · exact absurd h.symm hp
        · simpa [dictGet?, hp] using ih h

theorem dictGet?_eq_none_of_not_mem {V : Type} (d : List (String × V))
    {key : String} (h : key ∉ dictKeys d) : dictGet? d key = none := by
  induction d with
  | nil => simp [dictGet?]
  | cons p rest ih =>
      simp only [dictKeys, List.map_cons, List.mem_cons] at h
      push_neg at h
      have hp : p.1 ≠ key := fun hh => h.1 hh.symm
      simp [dictGet?, hp, ih h.2]

theorem mem_dictKeys_of_get?_some {V : Type} (d : List (String × V))
    {key : String} {v : V} (h : dictGet? d key = some v) : key ∈ dictKeys d := by
  by_contra hc
  rw [dictGet?_eq_none_of_not_mem d hc] at h
  exact Option.noConfusion h

/-! ### Lemmas about `listRemove` -/

theorem listRemove_sublist (l : List String) (key : String) :
    (listRemove l key).Sublist l := by
  induction l with
  | nil => simp [listRemove]
  | cons x rest ih =>
      by_cases hx : x = key
      · simp only [listRemove, if_pos hx]
        exact List.sublist_cons_self x rest
      · simp only [listRemove, if_neg hx]
        exact ih.cons₂ x

theorem nodup_listRemove (l : List String) (key : String) (h : l.Nodup) :
    (listRemove l key).Nodup :=
  (listRemove_sublist l key).nodup h

theorem listRemove_of_not_mem {l : List String} {key : String} (h : key ∉ l) :
    listRemove l key = l := by
  induction l with
  | nil => simp [listRemove]
  | cons x rest ih =>
      simp only [List.mem_cons] at h
      push_neg at h
      simp [listRemove, Ne.symm h.1, ih h.2]

theorem mem_listRemove_of_ne {l : List String} {k key : String} (h : k ≠ key) :
    k ∈ listRemove l key ↔ k ∈ l := by
  induction l with
  | nil => simp [listRemove]
  | cons x rest ih =>
      by_cases hx : x = key
      · subst hx
        simp only [listRemove, if_pos rfl, List.mem_cons]
        exact ⟨fun hm => Or.inr hm, fun hm => hm.resolve_left h⟩
      · simp only [listRemove, if_neg hx, List.mem_cons]
        tauto

theorem not_mem_listRemove {l : List String} (key : String) (h : l.Nodup) :
    key ∉ listRemove l key := by
  induction l with
  | nil => simp [listRemove]
  | cons x rest ih =>
      simp only [List.nodup_cons] at h
      by_cases hx : x = key
      · subst hx
        simpa [listRemove] using h.1
      · simp only [listRemove, if_neg hx, List.mem_cons]
        push_neg
        exact ⟨fun hh => hx hh.symm, ih h.2⟩

theorem mem_listRemove_iff {l : List String} {k key : String} (h : l.Nodup) :
    k ∈ listRemove l key ↔ k ∈ l ∧ k ≠ key := by
  by_cases hk : k = key
  · subst hk
    simp [not_mem_listRemove k h]
  · simp [mem_listRemove_of_ne hk, hk]

theorem length_listRemove_mem {l : List String} {key : String} (h : key ∈ l) :
    (listRemove l key).length + 1 = l.length := by
  induction l with
  | nil => simp at h
  | cons x rest ih =>
      by_cases hx : x = key
      · simp [listRemove, hx]
      · simp only [List.mem_cons] at h
        rcases h with h | h
        · exact absurd h.symm hx
        · simp [listRemove, hx, ih h]

/-! ### Lemmas about `setitemPre` and `setitem` -/

theorem setitemPre_nodup {V : Type} (c : DataCache V) (key : String)
    (h : c.ordered.Nodup) : (setitemPre c key).Nodup := by
  by_cases hk : key ∈ c.ordered
  · simp only [setitemPre, if_pos hk]
    exact nodup_listRemove _ _ h
  · simp only [setitemPre, if_neg hk]
    exact h

theorem not_mem_setitemPre {V : Type} (c : DataCache V) (key : String)
    (h : c.ordered.Nodup) : key ∉ setitemPre c key := by
  by_cases hk : key ∈ c.ordered
  · simp only [setitemPre, if_pos hk]
    exact not_mem_listRemove key h
  · simp only [setitemPre, if_neg hk]
    exact hk

theorem not_mem_setitemPre_of_not_mem {V : Type} (c : DataCache V) {key : String}
    (h : key ∉ c.ordered) : key ∉ setitemPre c key := by
  simp only [setitemPre, if_neg h]
  exact h

theorem mem_setitemPre_iff {V : Type} (c : DataCache V) (k key : String)
    (h : c.ordered.Nodup) : k ∈ setitemPre c key ↔ k ∈ c.ordered ∧ k ≠ key := by
  by_cases hk : key ∈ c.ordered
  · simp only [setitemPre, if_pos hk]
    exact mem_listRemove_iff h
  · simp only [setitemPre, if_neg hk]
    exact ⟨fun hm => ⟨hm, fun he => hk (he ▸ hm)⟩, fun hm => hm.1⟩

theorem length_setitemPre_mem {V : Type} (c : DataCache V) {key : String}
    (h : key ∈ c.ordered) : (setitemPre c key).length + 1 = c.ordered.length := by
  simp only [setitemPre, if_pos h]
  exact length_listRemove_mem h

theorem setitemPre_of_not_mem {V : Type} (c : DataCache V) {key : String}
    (h : key ∉ c.ordered) : setitemPre c key = c.ordered := by
  simp only [setitemPre, if_neg h]

theorem mem_ordered_setitem {V : Type} (c : DataCache V) (key : String)
    (value : V) : key ∈ (c.setitem key value).ordered := by
  unfold DataCache.setitem
  split <;> simp

theorem max_size_setitem {V : Type} (c : DataCache V) (key : String) (value : V) :
    (c.setitem key value).max_size = c.max_size := by
  unfold DataCache.setitem
  split <;> rfl

theorem dictGet?_setitem_self {V : Type} (c : DataCache V) (key : String)
    (value : V) (h : key ∉ setitemPre c key) :
    dictGet? (c.setitem key value).dict key = some value := by
  unfold DataCache.setitem
  split
  · next hlen =>
      rcases hl : setitemPre c key with _ | ⟨f, rest⟩
      · rw [hl] at hlen
        simp at hlen
      · rw [hl] at h
        have hf : f ≠ key := fun he => h (by simp [he])
        simp only [List.headD_cons]
        rw [dictGet?_dictPop_ne _ (Ne.symm hf)]
        exact dictGet?_dictSet_self c.dict key value
  · exact dictGet?_dictSet_self c.dict key value

theorem dictGet?_setitem_self_of_nodup {V : Type} (c : DataCache V) (key : String)
    (value : V) (h : c.ordered.Nodup) :
    dictGet? (c.setitem key value).dict key = some value :=
  dictGet?_setitem_self c key value (not_mem_setitemPre c key h)

theorem dictGet?_setitem_self_of_not_mem {V : Type} (c : DataCache V)
    {key : String} (value : V) (h : key ∉ c.ordered) :
    dictGet? (c.setitem key value).dict key = some value :=
  dictGet?_setitem_self c key value (not_mem_setitemPre_of_not_mem c h)

/-! ### The structural invariant of the cache (claim C5) -/

/-- The structural invariant tying the recency list to the mapping: no
duplicate keys in `ordered`, no duplicate keys in `dict`, the two key sets
coincide, and `ordered` is exactly as long as `dict`. -/
def DataCache.Inv {V : Type} (c : DataCache V) : Prop :=
  c.ordered.Nodup ∧ (dictKeys c.dict).Nodup ∧
    (∀ k, k ∈ c.ordered ↔ k ∈ dictKeys c.dict) ∧
    c.ordered.length = c.dict.length

theorem Inv_setitem {V : Type} (c : DataCache V) (key : String) (value : V)
    (h : c.Inv) : (c.setitem key value).Inv := by
  obtain ⟨hNo, hNd, hMem, hLen⟩ := h
  have hPreNo : (setitemPre c key).Nodup := setitemPre_nodup c key hNo
  have hPreKey : key ∉ setitemPre c key := not_mem_setitemPre c key hNo
  have hPreMem : ∀ k, k ∈ setitemPre c key ↔ k ∈ c.ordered ∧ k ≠ key :=
    fun k => mem_setitemPre_iff c k key hNo
  have hSetNd : (dictKeys (dictSet c.dict key value)).Nodup :=
    nodup_dictKeys_dictSet _ _ _ hNd
  have hSetMem : ∀ k,
      k ∈ dictKeys (dictSet c.dict key value) ↔ k = key ∨ k ∈ dictKeys c.dict :=
    fun k => mem_dictKeys_dictSet _ _ _ _
  have hSetLen : (dictSet c.dict key value).length =
      if key ∈ c.ordered then c.dict.length else c.dict.length + 1 := by
    by_cases hk : key ∈ c.ordered
    · rw [if_pos hk]
      exact length_dictSet_mem _ _ ((hMem key).1 hk)
    · rw [if_neg hk]
      exact length_dictSet_not_mem _ _ (fun hm => hk ((hMem key).2 hm))
  unfold DataCache.setitem
  split
  · next hlen =>
      rcases hl : setitemPre c key with _ | ⟨f, rest⟩
      · rw [hl] at hlen
        simp at hlen
      · rw [hl] at hPreNo hPreKey hPreMem hlen
        rw [List.nodup_cons] at hPreNo
        obtain ⟨hfr, hrestNo⟩ := hPreNo
        rw [List.mem_cons] at hPreKey
        push_neg at hPreKey
        obtain ⟨hkf, hkrest⟩ := hPreKey
        have hfk : f ≠ key := fun he => hkf he.symm
        have hfOrd : f ∈ c.ordered ∧ f ≠ key := (hPreMem f).1 (by simp)
        have hfSet : f ∈ dictKeys (dictSet c.dict key value) :=
          (hSetMem f).2 (Or.inr ((hMem f).1 hfOrd.1))
        have hRest : ∀ k, k ∈ rest ↔ (k ∈ c.ordered ∧ k ≠ key ∧ k ≠ f) := by
          intro k
          by_cases hkf2 : k = f
          · subst hkf2
            simp [hfr]
          · have h1 : k ∈ rest ↔ k ∈ f :: rest := by
              simp [List.mem_cons, hkf2]
            rw [h1, hPreMem k]
            tauto
        refine ⟨?_, nodup_dictKeys_dictPop _ _ hSetNd, ?_, ?_⟩
        · simp only [List.headD_cons, List.tail_cons]
          rw [List.nodup_append]
          refine ⟨hrestNo, List.nodup_singleton key, ?_⟩
          intro a ha hb
          rw [List.mem_singleton] at hb
          exact hkrest (hb ▸ ha)
        · intro k
          simp only [List.headD_cons, List.tail_cons, List.mem_append,
            List.mem_singleton, hRest k]
          by_cases hkf2 : k = f
          · subst hkf2
            have h1 : k ∉ dictKeys (dictPop (dictSet c.dict key value) k) :=
              not_mem_dictKeys_dictPop _ _ hSetNd
            simp only [h1, iff_false]
            rintro (⟨-, -, hkk⟩ | hkey)
            · exact hkk rfl
            · exact hfk hkey
          · rw [mem_dictKeys_dictPop_of_ne _ hkf2, hSetMem k, ← hMem k]
            tauto
        · simp only [List.headD_cons, List.tail_cons, List.length_append,
            List.length_singleton]
          have hPop : (dictPop (dictSet c.dict key value) f).length + 1 =
              (dictSet c.dict key value).length :=
            length_dictPop_mem _ hfSet
          have hPreLen : (f :: rest).length =
              if key ∈ c.ordered then c.ordered.length - 1 else c.ordered.length := by
            by_cases hk : key ∈ c.ordered
            · rw [if_pos hk, ← hl]
              have := length_setitemPre_mem c hk
              omega
            · rw [if_neg hk, ← hl, setitemPre_of_not_mem c hk]
          by_cases hk : key ∈ c.ordered
          · rw [if_pos hk] at hPreLen
            rw [if_pos hk] at hSetLen
            simp only [List.length_cons] at hPreLen
            have hord : 0 < c.ordered.length := List.length_pos_of_mem hk
            omega
          · rw [if_neg hk] at hPreLen
            rw [if_neg hk] at hSetLen
            simp only [List.length_cons] at hPreLen
            omega
  · next hlen =>
      refine ⟨?_, hSetNd, ?_, ?_⟩
      · rw [List.nodup_append]
        refine ⟨hPreNo, List.nodup_singleton key, ?_⟩
        intro a ha hb
        rw [List.mem_singleton] at hb
        exact hPreKey (hb ▸ ha)
      · intro k
        simp only [List.mem_append, List.mem_singleton, hPreMem k, hSetMem k,
          ← hMem k]
        tauto
      · simp only [List.length_append, List.length_singleton]
        by_cases hk : key ∈ c.ordered
        · rw [if_pos hk] at hSetLen
          have := length_setitemPre_mem c hk
          omega
        · rw [if_neg hk] at hSetLen
          rw [setitemPre_of_not_mem c hk]
          omega

/-- Moving a present key to the tail of the recency list (the common step of
`__getitem__`) preserves the invariant. -/
theorem Inv_touch {V : Type} (c : DataCache V) (key : String) (h : c.Inv)
    (hk : key ∈ c.ordered) :
    ({ c with ordered := listRemove c.ordered key ++ [key] } : DataCache V).Inv := by
  obtain ⟨hNo, hNd, hMem, hLen⟩ := h
  refine ⟨?_, hNd, ?_, ?_⟩
  · rw [List.nodup_append]
    refine ⟨nodup_listRemove _ _ hNo, List.nodup_singleton key, ?_⟩
    intro a ha hb
    rw [List.mem_singleton] at hb
    exact not_mem_listRemove key hNo (hb ▸ ha)
  · intro k
    simp only [List.mem_append, List.mem_singleton, mem_listRemove_iff hNo,
      ← hMem k]
    constructor
    · rintro (⟨hm, -⟩ | rfl)
      · exact hm
      · exact hk
    · intro hm
      by_cases he : k = key
      · exact Or.inr he
      · exact Or.inl ⟨hm, he⟩
  · simp only [List.length_append, List.length_singleton]
    have := length_listRemove_mem hk
    omega

theorem Inv_getitem {V : Type} (c : DataCache V) (key : String) (h : c.Inv) :
    (c.getitem key).1.Inv := by
  unfold DataCache.getitem
  by_cases hk : key ∈ c.ordered
  · rw [if_pos hk]
    cases hg : dictGet? c.dict key
    · simpa using Inv_touch c key h hk
    · simpa using Inv_touch c key h hk
  · rw [if_neg hk]
    exact h

theorem Inv_get {V : Type} (c : DataCache V) (key : String) (default : Option V)
    (h : c.Inv) : (c.get key default).1.Inv := by
  unfold DataCache.get
  by_cases hk : key ∈ c.ordered
  · rw [if_pos hk]
    have h1 : (c.getitem key).1.Inv := Inv_getitem c key h
    rcases hg : c.getitem key with ⟨c1, r⟩
    rw [hg] at h1
    cases r
    · exact h1
    · exact h1
  · rw [if_neg hk]
    cases default
    · exact h
    · exact Inv_setitem c key _ h

theorem Inv_pop {V : Type} (c : DataCache V) (key : String) (h : c.Inv) :
    (c.pop key).1.Inv := by
  obtain ⟨hNo, hNd, hMem, hLen⟩ := h
  unfold DataCache.pop
  by_cases hk : key ∈ c.ordered
  · rw [if_pos hk]
    cases hg : dictGet? c.dict key
    · obtain ⟨v, hv⟩ := dictGet?_eq_some_of_mem c.dict ((hMem key).1 hk)
      rw [hg] at hv
      exact Option.noConfusion hv
    · have hkd : key ∈ dictKeys c.dict := (hMem key).1 hk
      refine ⟨nodup_listRemove _ _ hNo, nodup_dictKeys_dictPop _ _ hNd, ?_, ?_⟩
      · intro k
        simp only [mem_listRemove_iff hNo]
        by_cases he : k = key
        · subst he
          simp only [not_mem_dictKeys_dictPop c.dict k hNd, iff_false]
          exact fun hm => hm.2 rfl
        · rw [mem_dictKeys_dictPop_of_ne _ he, ← hMem k]
          exact ⟨fun hm => hm.1, fun hm => ⟨hm, he⟩⟩
      · have h1 := length_listRemove_mem hk
        have h2 := length_dictPop_mem c.dict hkd
        simp only []
        omega
  · rw [if_neg hk]
    exact ⟨hNo, hNd, hMem, hLen⟩

/-! ### Lock granularity of `DataCache.get`

In the source, `__setitem__`, `__getitem__` and `pop` each execute their
whole body inside `with self._sem:` — a single critical section — while
`get` evaluates its membership test `key in self.ordered` *outside* the
semaphore and only then calls `__getitem__` or `__setitem__`, each of which
acquires the lock separately.  `getCheck` is that unlocked test and
`getAct` the subsequent atomic action; interleavings of two concurrent
`get` calls may therefore run both checks before either action. -/

/-- The unlocked membership test `key in self.ordered` of `DataCache.get`
(source line 133), evaluated outside the semaphore. -/
def DataCache.getCheck {V : Type} (c : DataCache V) (key : String) : Bool :=
  decide (key ∈ c.ordered)

/-- The action `DataCache.get` takes after its unlocked check: on a
remembered hit, the (atomic) `__getitem__`; on a remembered miss, the
(atomic) `__setitem__` of the default, or the `None` fall-through. -/
def DataCache.getAct {V : Type} (c : DataCache V) (key : String)
    (default : Option V) (hit : Bool) : DataCache V × Except CacheError (Option V) :=
  if hit then
    match c.getitem key with
    | (c1, Except.ok v) => (c1, Except.ok (some v))
    | (c1, Except.error e) => (c1, Except.error e)
  else
    match default with
    | some d => (c.setitem key d, Except.ok (some d))
    | none => (c, Except.ok none)

/-- The interleaving of two concurrent `get` calls in which both unlocked
membership checks run before either locked action (legal because the check
is outside the semaphore): check₁, check₂, act₁, act₂. -/
def raceGetGet {V : Type} (c : DataCache V) (key : String) (d1 d2 : V) :
    DataCache V × Except CacheError (Option V) × Except CacheError (Option V) :=
  let h1 := c.getCheck key
  let h2 := c.getCheck key
  let r1 := c.getAct key (some d1) h1
  let r2 := r1.1.getAct key (some d2) h2
  (r2.1, r1.2, r2.2)

/-- The serialized execution of the same two `get` calls, one completing
before the other starts. -/
def seqGetGet {V : Type} (c : DataCache V) (key : String) (d1 d2 : V) :
    DataCache V × Except CacheError (Option V) × Except CacheError (Option V) :=
  let r1 := c.get key (some d1)
  let r2 := r1.1.get key (some d2)
  (r2.1, r1.2, r2.2)

/-! ### The `Integrate` plugin -/

/-- The cache interaction of `Integrate.setup` (source lines 205-210) after
`ai = pyFAI.load(ponifile)`: look the key up with the freshly constructed
instance as default; if the returned object `is` the fresh instance, use it
directly; otherwise use `stored.__deepcopy__()`.  Objects are identified by
`Nat` ids; `deepcopy` yields the id of the copy; the `none` branch is
Python's `None.__deepcopy__()` (an `AttributeError`). -/
def Integrate.setup_ai (c : DataCache Nat) (key : String) (ai : Nat)
    (deepcopy : Nat → Nat) : DataCache Nat × Except CacheError (Option Nat) :=
  match c.get key (some ai) with
  | (c1, Except.error e) => (c1, Except.error e)
  | (c1, Except.ok stored) =>
      if stored = some ai then (c1, Except.ok stored)
      else
        match stored with
        | some s => (c1, Except.ok (some (deepcopy s)))
        | none => (c1, Except.error CacheError.attributeError)

/-- `os.path.basename` for POSIX paths: everything after the last `/`. -/
def os_path_basename (p : String) : String :=
  String.mk ((p.data.reverse.takeWhile (fun c => c ≠ '/')).reverse)

/-- The root part of `os.path.splitext`: drop the suffix starting at the
last `.`, unless every character before that `.` is itself a `.` (CPython's
leading-dot rule, e.g. `".bashrc"` keeps its name). -/
def splitextRoot (s : String) : String :=
  let cs := s.data
  match cs.reverse.findIdx? (fun c => c = '.') with
  | none => s
  | some j =>
      let i := cs.length - 1 - j
      if (cs.take i).any (fun c => c ≠ '.') then String.mk (cs.take i) else s

/-- `os.path.join(a, b)`: `b` when `b` is absolute, otherwise `a` and `b`
joined with a separator unless `a` is empty or already ends in one. -/
def os_path_join (a b : String) : String :=
  if b.data.headD ' ' = '/' then b
  else if a = "" then b
  else if a.data.getLastD ' ' = '/' then a ++ b
  else a ++ "/" ++ b

/-- The output path of one frame (source lines 230-231):
`os.path.join(self.dest_dir, os.path.splitext(os.path.basename(fname))[0] + ".dat")`. -/
def Integrate.destination (dest_dir : String) (fname : String) : String :=
  os_path_join dest_dir (splitextRoot (os_path_basename fname) ++ ".dat")

/-- The observable outcome of `Integrate.process`: the accumulated
`self.output_files` and the non-fatal `self.log_error(..., do_raise=False)`
messages, each in emission order. -/
structure ProcessOutput where
  output_files : List String
  errors : List String
deriving DecidableEq, Repr

/-- The frame loop of `Integrate.process` (source lines 220-238) over the
zipped `(monitor, fname)` pairs: a missing image file or a falsy monitor
value (`not monitor`, i.e. `monitor == 0`) logs a non-fatal error and skips
the frame; otherwise the frame is integrated and its destination appended
to `output_files`.  `fileExists` models `os.path.exists`; monitor values
are numbers, with Python falsiness `monitor == 0`. -/
def Integrate.processFrames (fileExists : String → Bool) (dest_dir : String) :
    List (Int × String) → ProcessOutput
  | [] => { output_files := [], errors := [] }
  | (monitor, fname) :: rest =>
      if fileExists fname = false then
        let r := Integrate.processFrames fileExists dest_dir rest
        { output_files := r.output_files,
          errors := ("image file: " ++ fname ++ " does not exist, skipping") :: r.errors }
      else if monitor = 0 then
        let r := Integrate.processFrames fileExists dest_dir rest
        { output_files := r.output_files,
          errors := ("Monitor value is " ++ toString monitor ++ ": skipping image " ++ fname) :: r.errors }
      else
        let r := Integrate.processFrames fileExists dest_dir rest
        { output_files := Integrate.destination dest_dir fname :: r.output_files,
          errors := r.errors }

/-- `Integrate.process` (source lines 215-238): default the monitor values
to all ones when absent, then run the frame loop over
`zip(self.monitor_values, self.input_files)`. -/
def Integrate.process (fileExists : String → Bool) (dest_dir : String)
    (monitor_values : Option (List Int)) (input_files : List String) :
    ProcessOutput :=
  let monitors :=
    match monitor_values with
    | none => List.replicate input_files.length 1
    | some ms => ms
  Integrate.processFrames fileExists dest_dir (monitors.zip input_files)

/-! ### Claim theorems -/

/-- C1 (code bug evidence): the claimed capacity invariant fails on the
code.  With capacity 2, after `set("A",1)`, `set("B",2)`, `set("C",3)` the
code keeps all three keys — `keys()` is `["A","B","C"]`, `contains("A")` is
`True` and the size is `3 > 2` — because `__setitem__` tests
`len(self.ordered) > self.max_size` *before* appending the new key, so the
cache holds up to `max_size + 1` entries, contradicting the claim and the
constructor's own documentation of `max_size`. -/
theorem c1_capacity_violated_eval :
    ((((DataCache.init none 2 : DataCache Nat).setitem "A" 1).setitem
          "B" 2).setitem "C" 3).keys = ["A", "B", "C"] ∧
    ((((DataCache.init none 2 : DataCache Nat).setitem "A" 1).setitem
          "B" 2).setitem "C" 3).contains "A" = true ∧
    ((((DataCache.init none 2 : DataCache Nat).setitem "A" 1).setitem
          "B" 2).setitem "C" 3).len = 3 := by
  exact ⟨rfl, rfl, rfl⟩

/-- C2 (code bug evidence): the claimed scenario fails on the code.  With
capacity 2, after `set("A",1)`, `set("B",2)`, `get("A")`, `set("C",3)` the
code yields `keys() == ["B","A","C"]` — nothing is evicted at all (the same
off-by-one as C1: eviction only triggers once the pre-append size exceeds
`max_size`), instead of the claimed `["A","C"]` with B evicted. -/
theorem c2_recency_scenario_eval :
    (((((DataCache.init none 2 : DataCache Nat).setitem "A" 1).setitem
          "B" 2).getitem "A").1.setitem "C" 3).keys = ["B", "A", "C"] ∧
    (((((DataCache.init none 2 : DataCache Nat).setitem "A" 1).setitem
          "B" 2).getitem "A").1.setitem "C" 3).len = 3 := by
  exact ⟨rfl, rfl⟩

/-- C3: the reuse protocol of `Integrate.setup`.  On a miss (first request
of a configuration), the lookup-or-insert call returns the very instance
just constructed, that fresh instance is used for the job and is resident
in the cache, with no copy made.  On the subsequent request of the same
key with a new fresh instance `ai2`, the call returns a different instance
(the prior `ai`), so the job uses the independent deep copy `deepcopy ai` —
never the cached instance itself. -/
theorem c3_reuse_protocol (c : DataCache Nat) (key : String) (ai ai2 : Nat)
    (deepcopy : Nat → Nat) (hmiss : key ∉ c.ordered) (hne : ai2 ≠ ai)
    (hdc : deepcopy ai ≠ ai) :
    (Integrate.setup_ai c key ai deepcopy).2 = Except.ok (some ai) ∧
    dictGet? (Integrate.setup_ai c key ai deepcopy).1.dict key = some ai ∧
    (Integrate.setup_ai (Integrate.setup_ai c key ai deepcopy).1 key ai2
        deepcopy).2 = Except.ok (some (deepcopy ai)) ∧
    (Integrate.setup_ai (Integrate.setup_ai c key ai deepcopy).1 key ai2
        deepcopy).2 ≠ Except.ok (some ai) := by
  have h1 : c.get key (some ai) = (c.setitem key ai, Except.ok (some ai)) := by
    unfold DataCache.get
    rw [if_neg hmiss]
  have hs : Integrate.setup_ai c key ai deepcopy
      = (c.setitem key ai, Except.ok (some ai)) := by
    unfold Integrate.setup_ai
    rw [h1]
    simp
  have hfst : (Integrate.setup_ai c key ai deepcopy).1 = c.setitem key ai := by
    rw [hs]
  have hmem : key ∈ (c.setitem key ai).ordered := mem_ordered_setitem c key ai
  have hdict : dictGet? (c.setitem key ai).dict key = some ai :=
    dictGet?_setitem_self_of_not_mem c ai hmiss
  have hg : (c.setitem key ai).getitem key
      = ({ c.setitem key ai with
            ordered := listRemove (c.setitem key ai).ordered key ++ [key] },
          Except.ok ai) := by
    unfold DataCache.getitem
    rw [if_pos hmem, hdict]
  have h2 : (c.setitem key ai).get key (some ai2)
      = ({ c.setitem key ai with
            ordered := listRemove (c.setitem key ai).ordered key ++ [key] },
          Except.ok (some ai)) := by
    unfold DataCache.get
    rw [if_pos hmem, hg]
  have hs2 : Integrate.setup_ai (c.setitem key ai) key ai2 deepcopy
      = ({ c.setitem key ai with
            ordered := listRemove (c.setitem key ai).ordered key ++ [key] },
          Except.ok (some (deepcopy ai))) := by
    unfold Integrate.setup_ai
    rw [h2]
    simp [Ne.symm hne]
  refine ⟨by rw [hs], by rw [hfst]; exact hdict, ?_, ?_⟩
  · rw [hfst, hs2]
  · rw [hfst, hs2]
    simp [hdc]

/-- C3 witness: the theorem instantiated on an empty cache with a fresh
instance id 5, a second fresh id 6 and deep copies shifted by 100. -/
theorem c3_reuse_protocol_witness :
    ("k" ∉ (DataCache.init none 10 : DataCache Nat).ordered ∧ (6 : Nat) ≠ 5 ∧
        (fun n => n + 100) 5 ≠ 5) ∧
    ((Integrate.setup_ai (DataCache.init none 10) "k" 5 (fun n => n + 100)).2
        = Except.ok (some 5) ∧
      dictGet? (Integrate.setup_ai (DataCache.init none 10) "k" 5
          (fun n => n + 100)).1.dict "k" = some 5 ∧
      (Integrate.setup_ai (Integrate.setup_ai (DataCache.init none 10) "k" 5
          (fun n => n + 100)).1 "k" 6 (fun n => n + 100)).2
        = Except.ok (some ((fun n => n + 100) 5)) ∧
      (Integrate.setup_ai (Integrate.setup_ai (DataCache.init none 10) "k" 5
          (fun n => n + 100)).1 "k" 6 (fun n => n + 100)).2
        ≠ Except.ok (some 5)) :=
  ⟨⟨by simp [DataCache.init], by decide, by decide⟩,
    c3_reuse_protocol (DataCache.init none 10) "k" 5 6 (fun n => n + 100)
      (by simp [DataCache.init]) (by decide) (by decide)⟩

/-- C4: `get_or_insert` (i.e. `DataCache.get` with a non-`None` default) on
a cache not containing `k` stores `v` and returns `v` itself; a subsequent
`get_or_insert(k, w)` returns the previously stored `v` (not `w`) by
identity and leaves the size unchanged. -/
theorem c4_get_or_insert (c : DataCache Nat) (k : String) (v w : Nat)
    (hInv : c.Inv) (habs : c.contains k = false) (hvw : v ≠ w) :
    (c.get k (some v)).2 = Except.ok (some v) ∧
    ((c.get k (some v)).1.get k (some w)).2 = Except.ok (some v) ∧
    ((c.get k (some v)).1.get k (some w)).2 ≠ Except.ok (some w) ∧
    ((c.get k (some v)).1.get k (some w)).1.len = (c.get k (some v)).1.len := by
  obtain ⟨hNo, hNd, hMem, hLen⟩ := hInv
  have hkd : k ∉ dictKeys c.dict := by simpa [DataCache.contains] using habs
  have hko : k ∉ c.ordered := fun hm => hkd ((hMem k).1 hm)
  have h1 : c.get k (some v) = (c.setitem k v, Except.ok (some v)) := by
    unfold DataCache.get
    rw [if_neg hko]
  have hfst : (c.get k (some v)).1 = c.setitem k v := by rw [h1]
  have hmem : k ∈ (c.setitem k v).ordered := mem_ordered_setitem c k v
  have hdict : dictGet? (c.setitem k v).dict k = some v :=
    dictGet?_setitem_self_of_not_mem c v hko
  have hg : (c.setitem k v).getitem k
      = ({ c.setitem k v with
            ordered := listRemove (c.setitem k v).ordered k ++ [k] },
          Except.ok v) := by
    unfold DataCache.getitem
    rw [if_pos hmem, hdict]
  have h2 : (c.setitem k v).get k (some w)
      = ({ c.setitem k v with
            ordered := listRemove (c.setitem k v).ordered k ++ [k] },
          Except.ok (some v)) := by
    unfold DataCache.get
    rw [if_pos hmem, hg]
  refine ⟨by rw [h1], by rw [hfst, h2], ?_, ?_⟩
  · rw [hfst, h2]
    simp [hvw]
  · rw [hfst, h2]
    show (listRemove (c.setitem k v).ordered k ++ [k]).length
        = (c.setitem k v).ordered.length
    simp only [List.length_append, List.length_singleton]
    have := length_listRemove_mem hmem
    omega

/-- C4 witness: `get_or_insert("X", 99)` on an empty cache returns 99,
then `get_or_insert("X", 7)` returns 99 (not 7) without changing the size. -/
theorem c4_get_or_insert_witness :
    ((DataCache.init none 10 : DataCache Nat).Inv ∧
        (DataCache.init none 10 : DataCache Nat).contains "X" = false ∧
        (99 : Nat) ≠ 7) ∧
    (((DataCache.init none 10 : DataCache Nat).get "X" (some 99)).2
        = Except.ok (some 99) ∧
      (((DataCache.init none 10 : DataCache Nat).get "X" (some 99)).1.get "X"
          (some 7)).2 = Except.ok (some 99) ∧
      (((DataCache.init none 10 : DataCache Nat).get "X" (some 99)).1.get "X"
          (some 7)).2 ≠ Except.ok (some 7) ∧
      (((DataCache.init none 10 : DataCache Nat).get "X" (some 99)).1.get "X"
          (some 7)).1.len
        = ((DataCache.init none 10 : DataCache Nat).get "X" (some 99)).1.len) :=
  ⟨⟨⟨List.nodup_nil, List.nodup_nil, fun k => Iff.rfl, rfl⟩, by decide, by decide⟩,
    c4_get_or_insert (DataCache.init none 10) "X" 99 7
      ⟨List.nodup_nil, List.nodup_nil, fun k => Iff.rfl, rfl⟩
      (by decide) (by decide)⟩

/-- C5: every cache operation — `set`, `get`(item), `get_or_insert` and
`remove` (`pop`) — preserves the structural invariant: the recency order
has no duplicate keys, its length always equals the number of entries in
the mapping, and the key sets of the recency order and the mapping
coincide. -/
theorem c5_cache_invariants {V : Type} (c : DataCache V) (key : String)
    (value : V) (default : Option V) (h : c.Inv) :
    (c.setitem key value).Inv ∧ (c.getitem key).1.Inv ∧
    (c.get key default).1.Inv ∧ (c.pop key).1.Inv :=
  ⟨Inv_setitem c key value h, Inv_getitem c key h,
    Inv_get c key default h, Inv_pop c key h⟩

/-- C5 witness: the invariant of a one-entry cache, and its preservation by
all four operations applied there. -/
theorem c5_cache_invariants_witness :
    ((DataCache.init none 10 : DataCache Nat).setitem "A" 1).Inv ∧
    (((((DataCache.init none 10 : DataCache Nat).setitem "A" 1).setitem
          "B" 2).Inv ∧
        (((DataCache.init none 10 : DataCache Nat).setitem "A" 1).getitem
            "B").1.Inv ∧
        (((DataCache.init none 10 : DataCache Nat).setitem "A" 1).get "B"
            (some 3)).1.Inv ∧
        (((DataCache.init none 10 : DataCache Nat).setitem "A" 1).pop
            "B").1.Inv)) := by
  have h0 : (DataCache.init none 10 : DataCache Nat).Inv :=
    ⟨List.nodup_nil, List.nodup_nil, fun k => Iff.rfl, rfl⟩
  have h1 : ((DataCache.init none 10 : DataCache Nat).setitem "A" 1).Inv :=
    Inv_setitem _ "A" 1 h0
  exact ⟨h1, c5_cache_invariants _ "B" 2 (some 3) h1⟩

/-- The per-frame characterization of the frame loop: the output files are
exactly the destinations of the frames whose file exists and whose monitor
is nonzero, in input order, and each skipped frame logs exactly one
non-fatal error, also in input order. -/
theorem processFrames_characterization (fileExists : String → Bool)
    (dest_dir : String) (frames : List (Int × String)) :
    (Integrate.processFrames fileExists dest_dir frames).output_files
        = frames.filterMap (fun mf =>
            if fileExists mf.2 = true ∧ mf.1 ≠ 0 then
              some (Integrate.destination dest_dir mf.2)
            else none) ∧
    (Integrate.processFrames fileExists dest_dir frames).errors
        = frames.filterMap (fun mf =>
            if fileExists mf.2 = false then
              some ("image file: " ++ mf.2 ++ " does not exist, skipping")
            else if mf.1 = 0 then
              some ("Monitor value is " ++ toString mf.1
                ++ ": skipping image " ++ mf.2)
            else none) := by
  induction frames with
  | nil => exact ⟨rfl, rfl⟩
  | cons p rest ih =>
      obtain ⟨m, f⟩ := p
      by_cases hf : fileExists f = true
      · by_cases hm : m = 0
        · simp [Integrate.processFrames, hf, hm, ih.1, ih.2]
        · simp [Integrate.processFrames, hf, hm, ih.1, ih.2]
      · have hf2 : fileExists f = false := by simpa using hf
        simp [Integrate.processFrames, hf2, ih.1, ih.2]

/-- C6 counterexample: a frame with an existing image file and the
non-positive monitor value `-1` is *not* skipped — `not monitor` is false
for `-1` — so the job produces an output file and logs no error for it,
contradicting the claim that frames with non-positive monitor values are
skipped with a logged error. -/
theorem c6_counterexample :
    Integrate.process (fun _ => true) "/out" (some [-1]) ["a.edf"]
        = { output_files := ["/out/a.dat"], errors := [] } ∧
    (Integrate.process (fun _ => true) "/out" (some [-1]) ["a.edf"]).output_files
        ≠ [] := by
  exact ⟨by decide, by decide⟩

/-- C6 amended: each frame whose image file does not exist or whose monitor
value is *zero* (Python-falsy; negative monitors are processed, not
skipped) is skipped with a non-fatal logged error and the batch continues;
`output_files` contains exactly the output paths of the successfully
processed frames (existing file, nonzero monitor), in input order. -/
theorem c6_amended_skip_semantics (fileExists : String → Bool)
    (dest_dir : String) (ms : List Int) (fs : List String) :
    (Integrate.process fileExists dest_dir (some ms) fs).output_files
        = (ms.zip fs).filterMap (fun mf =>
            if fileExists mf.2 = true ∧ mf.1 ≠ 0 then
              some (Integrate.destination dest_dir mf.2)
            else none) ∧
    (Integrate.process fileExists dest_dir (some ms) fs).errors
        = (ms.zip fs).filterMap (fun mf =>
            if fileExists mf.2 = false then
              some ("image file: " ++ mf.2 ++ " does not exist, skipping")
            else if mf.1 = 0 then
              some ("Monitor value is " ++ toString mf.1
                ++ ": skipping image " ++ mf.2)
            else none) :=
  processFrames_characterization fileExists dest_dir (ms.zip fs)

/-- C7: `__getitem__` on an absent key signals a lookup failure (Python: a
`ValueError` from `list.index` — the spec's KeyNotFound condition, not a
silent default), `pop` on an absent key signals `KeyError`, and on success
`pop` deletes the key from both the recency order and the mapping and
returns the removed value. -/
theorem c7_keynotfound (c : DataCache Nat) (ka kp : String) (v : Nat)
    (hInv : c.Inv) (habs : c.contains ka = false)
    (hpres : dictGet? c.dict kp = some v) :
    (c.getitem ka).2 = Except.error CacheError.valueError ∧
    (c.pop ka).2 = Except.error CacheError.keyError ∧
    (c.pop kp).2 = Except.ok v ∧
    kp ∉ (c.pop kp).1.ordered ∧
    (c.pop kp).1.contains kp = false := by
  obtain ⟨hNo, hNd, hMem, hLen⟩ := hInv
  have hkd : ka ∉ dictKeys c.dict := by simpa [DataCache.contains] using habs
  have hko : ka ∉ c.ordered := fun hm => hkd ((hMem ka).1 hm)
  have hpd : kp ∈ dictKeys c.dict := mem_dictKeys_of_get?_some c.dict hpres
  have hpo : kp ∈ c.ordered := (hMem kp).2 hpd
  have hpop : c.pop kp
      = ({ c with ordered := listRemove c.ordered kp, dict := dictPop c.dict kp },
          Except.ok v) := by
    unfold DataCache.pop
    rw [if_pos hpo, hpres]
  refine ⟨?_, ?_, by rw [hpop], ?_, ?_⟩
  · unfold DataCache.getitem
    rw [if_neg hko]
  · unfold DataCache.pop
    rw [if_neg hko]
  · rw [hpop]
    exact not_mem_listRemove kp hNo
  · rw [hpop]
    simp [DataCache.contains, not_mem_dictKeys_dictPop c.dict kp hNd]

/-- C7 witness: on the one-entry cache `{"P": 5}`, lookups and removal of
the absent key `"Q"` fail, and `pop("P")` returns 5 and removes `"P"` from
both structures. -/
theorem c7_keynotfound_witness :
    (((DataCache.init none 10 : DataCache Nat).setitem "P" 5).Inv ∧
        ((DataCache.init none 10 : DataCache Nat).setitem "P" 5).contains "Q"
          = false ∧
        dictGet? ((DataCache.init none 10 : DataCache Nat).setitem "P" 5).dict
          "P" = some 5) ∧
    ((((DataCache.init none 10 : DataCache Nat).setitem "P" 5).getitem "Q").2
        = Except.error CacheError.valueError ∧
      (((DataCache.init none 10 : DataCache Nat).setitem "P" 5).pop "Q").2
        = Except.error CacheError.keyError ∧
      (((DataCache.init none 10 : DataCache Nat).setitem "P" 5).pop "P").2
        = Except.ok 5 ∧
      "P" ∉ (((DataCache.init none 10 : DataCache Nat).setitem "P" 5).pop
          "P").1.ordered ∧
      (((DataCache.init none 10 : DataCache Nat).setitem "P" 5).pop
          "P").1.contains "P" = false) := by
  have h1 : ((DataCache.init none 10 : DataCache Nat).setitem "P" 5).Inv :=
    Inv_setitem _ "P" 5 ⟨List.nodup_nil, List.nodup_nil, fun k => Iff.rfl, rfl⟩
  exact ⟨⟨h1, by decide, rfl⟩,
    c7_keynotfound _ "Q" "P" 5 h1 (by decide) rfl⟩

/-- C8: the Borg pattern.  Constructing a cache over existing shared state
returns that state unchanged (so every instance aliases one process-wide
state and the capacity is fixed by the first initialization, ignoring later
`max_size` arguments); a mutation `a.set(k, v)` through one instance is
observed by a `get(k)` through a freshly constructed second instance; the
default capacity of the first initialization is 10. -/
theorem c8_borg_shared_state (s : DataCache Nat) (m m2 : Nat) (k : String)
    (v : Nat) (hNo : s.ordered.Nodup) :
    DataCache.init (some s) m = s ∧
    (DataCache.init (some s) m).max_size = s.max_size ∧
    ((DataCache.init (some (s.setitem k v)) m2).getitem k).2 = Except.ok v ∧
    (DataCache.init (none : Option (DataCache Nat)) defaultMaxSize).max_size
      = 10 := by
  refine ⟨rfl, rfl, ?_, rfl⟩
  have hmem : k ∈ (s.setitem k v).ordered := mem_ordered_setitem s k v
  have hdict : dictGet? (s.setitem k v).dict k = some v :=
    dictGet?_setitem_self_of_nodup s k v hNo
  show ((s.setitem k v).getitem k).2 = Except.ok v
  unfold DataCache.getitem
  rw [if_pos hmem, hdict]

/-- C8 witness: the theorem instantiated on the empty shared state, with a
later construction using a different `max_size`. -/
theorem c8_borg_shared_state_witness :
    (DataCache.init none 10 : DataCache Nat).ordered.Nodup ∧
    (DataCache.init (some (DataCache.init none 10 : DataCache Nat)) 5
        = (DataCache.init none 10 : DataCache Nat) ∧
      (DataCache.init (some (DataCache.init none 10 : DataCache Nat)) 5).max_size
        = (DataCache.init none 10 : DataCache Nat).max_size ∧
      ((DataCache.init
          (some ((DataCache.init none 10 : DataCache Nat).setitem "B" 7))
          3).getitem "B").2 = Except.ok 7 ∧
      (DataCache.init (none : Option (DataCache Nat)) defaultMaxSize).max_size
        = 10) :=
  ⟨List.nodup_nil,
    c8_borg_shared_state (DataCache.init none 10) 5 3 "B" 7 List.nodup_nil⟩

/-- C9 counterexample: `DataCache.get` runs its membership check outside
the semaphore, so the interleaving check₁-check₂-act₁-act₂ of two
concurrent `get("K", default)` calls on an empty cache is legal; it makes
both callers insert and return their *own* default — outcome
`(ok 1, ok 2)` with final stored value 2 — while the two serialized
executions return `(ok 1, ok 1)` and `(ok 2, ok 2)`.  The first caller's
update is silently overwritten: a lost update, which the claimed
whole-operation lock would make impossible. -/
theorem c9_counterexample :
    (raceGetGet (DataCache.init none 10 : DataCache Nat) "K" 1 2).2
        = (Except.ok (some 1), Except.ok (some 2)) ∧
    (seqGetGet (DataCache.init none 10 : DataCache Nat) "K" 1 2).2
        = (Except.ok (some 1), Except.ok (some 1)) ∧
    (seqGetGet (DataCache.init none 10 : DataCache Nat) "K" 2 1).2
        = (Except.ok (some 2), Except.ok (some 2)) ∧
    dictGet? (raceGetGet (DataCache.init none 10 : DataCache Nat) "K" 1 2).1.dict
        "K" = some 2 := by
  exact ⟨rfl, rfl, rfl, rfl⟩

/-- C9 amended: `__setitem__`, `__getitem__` and `pop` each execute as a
single critical section, but `get`/`get_or_insert` decomposes into an
unlocked membership check followed by one separately-locked action —
`get = getAct ∘ getCheck` — and the resulting two-`get` race outcome
differs from every serialized execution (a lost update is possible). -/
theorem c9_amended_lock_structure :
    (∀ (c : DataCache Nat) (key : String) (d : Option Nat),
        c.get key d = c.getAct key d (c.getCheck key)) ∧
    (raceGetGet (DataCache.init none 10 : DataCache Nat) "K" 1 2).2
        ≠ (seqGetGet (DataCache.init none 10 : DataCache Nat) "K" 1 2).2 ∧
    (raceGetGet (DataCache.init none 10 : DataCache Nat) "K" 1 2).2
        ≠ (seqGetGet (DataCache.init none 10 : DataCache Nat) "K" 2 1).2 := by
  refine ⟨?_, by decide, by decide⟩
  intro c key d
  by_cases hk : key ∈ c.ordered
  · simp [DataCache.get, DataCache.getAct, DataCache.getCheck, hk]
  · simp [DataCache.get, DataCache.getAct, DataCache.getCheck, hk]

/-- C10: when `monitor_values` is supplied and shorter than `input_files`,
`Integrate.process` behaves exactly as if only the first
`len(monitor_values)` input files had been given: the remaining inputs are
silently ignored — no output file, no logged error (`zip` truncation). -/
theorem c10_monitor_truncation (fileExists : String → Bool) (dest_dir : String)
    (ms : List Int) (fs : List String) (_h : ms.length < fs.length) :
    Integrate.process fileExists dest_dir (some ms) fs
      = Integrate.process fileExists dest_dir (some ms) (fs.take ms.length) := by
  have hz : ∀ (a : List Int) (b : List String), a.zip b = a.zip (b.take a.length) := by
    intro a
    induction a with
    | nil => intro b; simp
    | cons x xs ih =>
        intro b
        cases b with
        | nil => simp
        | cons y ys => simp [ih ys]
  show Integrate.processFrames fileExists dest_dir (ms.zip fs)
      = Integrate.processFrames fileExists dest_dir (ms.zip (fs.take ms.length))
  rw [← hz ms fs]

/-- C10 witness: one monitor value against two input files processes only
the first file. -/
theorem c10_monitor_truncation_witness :
    ([(1 : Int)].length < ["a.edf", "b.edf"].length) ∧
    Integrate.process (fun _ => true) "/out" (some [(1 : Int)])
        ["a.edf", "b.edf"]
      = Integrate.process (fun _ => true) "/out" (some [(1 : Int)])
        (["a.edf", "b.edf"].take [(1 : Int)].length) :=
  ⟨by decide,
    c10_monitor_truncation (fun _ => true) "/out" [(1 : Int)]
      ["a.edf", "b.edf"] (by decide)⟩

end ID31
